import Mathlib

/-!
Shallow embedding of the `isin` crate (src/src/checksum.rs, src/src/lib.rs,
src/src/error.rs) and proofs about it.

Strings are modelled as lists of Unicode code points (`List Nat`); the byte
view a Rust `&str` exposes is recovered by UTF-8 encoding (`utf8Str`).
A Rust panic is modelled as `none`: every function that can transitively
reach the panicking branch of `char_value` returns an `Option`.
-/

namespace Isin

/-! ## src/src/checksum.rs -/

/-- `char_value` from checksum.rs: value 0-9 for ASCII digits, 10-35 for
uppercase ASCII letters; the panicking branch is `none`. -/
def char_value (c : Nat) : Option Nat :=
  if 48 ≤ c ∧ c ≤ 57 then some (c - 48)
  else if 65 ≤ c ∧ c ≤ 90 then some (c - 65 + 10)
  else none

/-- The inner helper `digits_of` of `checksum_functional`. -/
def digits_of (x : Nat) : List Nat :=
  if x ≥ 10 then [x / 10, x % 10] else [x]

/-- Mapping `char_value` over a byte list; `none` as soon as any byte is
outside the alphanumeric set (the Rust iterator panics on such a byte). -/
def charValues : List Nat → Option (List Nat)
  | [] => some []
  | c :: rest =>
    match char_value c, charValues rest with
    | some v, some vs => some (v :: vs)
    | _, _ => none

/-- `checksum_functional` from checksum.rs: expand values to digits, reverse,
double the even-indexed digits of the reversed sequence (re-expanding),
sum, and complement mod 10 (10 reported as 0). -/
def checksum_functional (s : List Nat) : Option Nat :=
  (charValues s).map fun vs =>
    let digits := ((vs.map digits_of).flatten).reverse
    let total := (digits.enum.flatMap fun p =>
      if p.1 % 2 == 0 then digits_of (p.2 * 2) else digits_of p.2).sum
    let sum := total % 10
    let diff := 10 - sum
    if diff == 10 then 0 else diff

/-- The `WIDTHS` table from checksum.rs. -/
def WIDTHS : List Nat :=
  [1, 1, 1, 1, 1, 1, 1, 1, 1, 1,
   2, 2, 2, 2, 2, 2, 2, 2, 2, 2,
   2, 2, 2, 2, 2, 2, 2, 2, 2, 2,
   2, 2, 2, 2, 2, 2]

/-- The `ODDS` table from checksum.rs. -/
def ODDS : List Nat :=
  [0, 1, 2, 3, 4, 5, 6, 7, 8, 9,
   2, 3, 4, 5, 6, 7, 8, 9, 0, 1,
   4, 5, 6, 7, 8, 9, 0, 1, 2, 3,
   6, 7, 8, 9, 0, 1]

/-- The `EVENS` table from checksum.rs. -/
def EVENS : List Nat :=
  [0, 2, 4, 6, 8,
   1, 3, 5, 7, 9,
   1, 3, 5, 7, 9,
   2, 4, 6, 8, 0,
   2, 4, 6, 8, 0,
   3, 5, 7, 9, 1,
   3, 5, 7, 9, 1,
   4]

/-- The loop of `checksum_table`, walking the (already reversed) input,
carrying the running sum (kept below 10) and the step counter. -/
def tableLoop : List Nat → Nat → Nat → Option Nat
  | [], sum, _ => some sum
  | c :: rest, sum, idx =>
    match char_value c with
    | none => none
    | some v =>
      tableLoop rest
        ((sum + (if idx % 2 == 0 then EVENS.getD v 0 else ODDS.getD v 0)) % 10)
        (idx + WIDTHS.getD v 0)

/-- `checksum_table` from checksum.rs: table-driven right-to-left walk. -/
def checksum_table (s : List Nat) : Option Nat :=
  (tableLoop s.reverse 0 0).map fun sum =>
    let diff := 10 - sum
    if diff == 10 then 0 else diff

example : checksum_table [85, 83, 48, 51, 55, 56, 51, 51, 49, 48, 48] = some 5 := by rfl
example : checksum_functional [85, 83, 48, 51, 55, 56, 51, 51, 49, 48, 48] = some 5 := by rfl
example : checksum_functional [] = some 0 := by rfl
example : checksum_table [] = some 0 := by rfl
example : checksum_table [97] = none := by rfl

/-! ## src/src/error.rs -/

/-- The `Error` enum from error.rs. Field payloads keep the Rust shapes:
lengths as `Nat`, captured bad fields as byte lists, single bytes as `Nat`. -/
inductive Error where
  | InvalidValueStringLength (was : Nat)
  | InvalidValueArrayLength (was : Nat)
  | InvalidPayloadStringLength (was : Nat)
  | InvalidPayloadArrayLength (was : Nat)
  | InvalidPrefixStringLength (was : Nat)
  | InvalidPrefixArrayLength (was : Nat)
  | InvalidBasicCodeStringLength (was : Nat)
  | InvalidBasicCodeArrayLength (was : Nat)
  | InvalidPrefix (was : List Nat)
  | InvalidBasicCode (was : List Nat)
  | InvalidCheckDigit (was : Nat)
  | IncorrectCheckDigit (was : Nat) (expected : Nat)
deriving DecidableEq

/-! ## src/src/lib.rs -/

/-- `u8::is_ascii_digit`. -/
def is_ascii_digit (b : Nat) : Bool := 48 ≤ b && b ≤ 57

/-- `b.is_ascii_alphabetic() && b.is_ascii_uppercase()` as used by the
field validators: an uppercase ASCII letter. -/
def is_upper_alpha (b : Nat) : Bool := 65 ≤ b && b ≤ 90

/-- The character class accepted by `validate_basic_code_format` (and by
`char_value`): ASCII digit or uppercase ASCII letter. -/
def validByte (b : Nat) : Bool := is_ascii_digit b || is_upper_alpha b

/-- `compute_check_digit` from lib.rs: checksum plus ASCII `'0'`. -/
def compute_check_digit (s : List Nat) : Option Nat :=
  (checksum_table s).map fun sum => 48 + sum

/-- `validate_prefix_format` from lib.rs. The Rust loop returns on the first
bad byte, carrying a copy of the whole 2-byte field, so it is equivalent to
an `all` check. -/
def validate_prefix_format (pfx : List Nat) : Except Error (List Nat) :=
  if pfx.length ≠ 2 then .error (.InvalidPrefixArrayLength pfx.length)
  else if pfx.all is_upper_alpha then .ok pfx
  else .error (.InvalidPrefix pfx)

/-- `validate_basic_code_format` from lib.rs. -/
def validate_basic_code_format (basic_code : List Nat) : Except Error (List Nat) :=
  if basic_code.length ≠ 9 then .error (.InvalidBasicCodeArrayLength basic_code.length)
  else if basic_code.all validByte then .ok basic_code
  else .error (.InvalidBasicCode basic_code)

/-- `validate_check_digit_value` from lib.rs; `none` is the panic that
`compute_check_digit` would raise on an invalid payload byte. -/
def validate_check_digit_value (payload : List Nat) (check_digit : Nat) :
    Option (Except Error Nat) :=
  if ¬ is_ascii_digit check_digit then some (.error (.InvalidCheckDigit check_digit))
  else
    match compute_check_digit payload with
    | none => none
    | some computed =>
      if check_digit ≠ computed then
        some (.error (.IncorrectCheckDigit check_digit computed))
      else some (.ok check_digit)

/-- `validate_payload_format` from lib.rs: length 11, then the
`payload[0..2]` and `payload[2..11]` slices. -/
def validate_payload_format (payload : List Nat) : Except Error (List Nat) :=
  if payload.length ≠ 11 then .error (.InvalidPayloadArrayLength payload.length)
  else
    match validate_prefix_format (payload.take 2) with
    | .error e => .error e
    | .ok _ =>
      match validate_basic_code_format ((payload.drop 2).take 9) with
      | .error e => .error e
      | .ok _ => .ok payload

/-- UTF-8 encoding of one Unicode code point. -/
def utf8Encode (c : Nat) : List Nat :=
  if c < 128 then [c]
  else if c < 2048 then [192 + c / 64, 128 + c % 64]
  else if c < 65536 then [224 + c / 4096, 128 + c / 64 % 64, 128 + c % 64]
  else [240 + c / 262144, 128 + c / 4096 % 64, 128 + c / 64 % 64, 128 + c % 64]

/-- The byte view Rust's `str::as_bytes`/`str::len` expose for a string
given as a list of code points. -/
def utf8Str (s : List Nat) : List Nat := (s.map utf8Encode).flatten

/-- `validate` from lib.rs, working on the byte view. The second length
test reproduces the (dead) `InvalidValueArrayLength` branch of the source. -/
def validateBytes (b : List Nat) : Option (Except Error (List Nat)) :=
  if b.length ≠ 12 then some (.error (.InvalidValueStringLength b.length))
  else if b.length ≠ 12 then some (.error (.InvalidValueArrayLength b.length))
  else
    match validate_payload_format (b.take 11) with
    | .error e => some (.error e)
    | .ok _ =>
      match validate_check_digit_value (b.take 11) (b.getD 11 0) with
      | none => none
      | some (.error e) => some (.error e)
      | some (.ok _) => some (.ok b)

/-- Public `validate` from lib.rs on a code-point string. -/
def validate (value : List Nat) : Option (Except Error (List Nat)) :=
  validateBytes (utf8Str value)

/-- The `ISIN` struct from lib.rs: 12 validated bytes. Equality is
structural over the bytes, as derived in Rust. -/
structure ISIN where
  bytes : List Nat
deriving DecidableEq

/-- `parse` from lib.rs. -/
def parse (value : List Nat) : Option (Except Error ISIN) :=
  (validate value).map fun r => r.map ISIN.mk

/-- `char::to_ascii_uppercase` on a code point. -/
def to_ascii_uppercase (c : Nat) : Nat :=
  if 97 ≤ c ∧ c ≤ 122 then c - 32 else c

/-- `char::is_whitespace`: the Unicode `White_Space` code points. -/
def isWhitespaceChar (c : Nat) : Bool :=
  (9 ≤ c && c ≤ 13) || c == 32 || c == 133 || c == 160 || c == 5760 ||
  (8192 ≤ c && c ≤ 8202) || c == 8232 || c == 8233 || c == 8239 ||
  c == 8287 || c == 12288

/-- `str::trim`: drop leading and trailing whitespace code points. -/
def trimStr (s : List Nat) : List Nat :=
  ((s.dropWhile isWhitespaceChar).reverse.dropWhile isWhitespaceChar).reverse

/-- `parse_loose` from lib.rs: uppercase, trim, then strict `parse`. -/
def parse_loose (value : List Nat) : Option (Except Error ISIN) :=
  parse (trimStr (value.map to_ascii_uppercase))

/-- `build_from_payload` from lib.rs. -/
def build_from_payload (payload : List Nat) : Option (Except Error ISIN) :=
  match validate_payload_format (utf8Str payload) with
  | .error e => some (.error e)
  | .ok _ =>
    match compute_check_digit (utf8Str payload) with
    | none => none
    | some cd => some (.ok ⟨utf8Str payload ++ [cd]⟩)

/-- `build_from_parts` from lib.rs: string-length checks on each part, then
the format validators on the `[0..2]` and `[0..9]` byte slices. -/
def build_from_parts (pfx basic_code : List Nat) : Option (Except Error ISIN) :=
  if (utf8Str pfx).length ≠ 2 then
    some (.error (.InvalidPrefixStringLength (utf8Str pfx).length))
  else
    match validate_prefix_format ((utf8Str pfx).take 2) with
    | .error e => some (.error e)
    | .ok _ =>
      if (utf8Str basic_code).length ≠ 9 then
        some (.error (.InvalidBasicCodeStringLength (utf8Str basic_code).length))
      else
        match validate_basic_code_format ((utf8Str basic_code).take 9) with
        | .error e => some (.error e)
        | .ok _ =>
          match compute_check_digit ((utf8Str pfx).take 2 ++ (utf8Str basic_code).take 9) with
          | none => none
          | some cd =>
            some (.ok ⟨(utf8Str pfx).take 2 ++ (utf8Str basic_code).take 9 ++ [cd]⟩)

/-- The `Display`/`AsRef<str>` rendering of an `ISIN`: the string whose code
points are the 12 ASCII bytes. -/
def render (i : ISIN) : List Nat := i.bytes

/-- Code points of `"US0378331005"`. -/
def appleStr : List Nat := [85, 83, 48, 51, 55, 56, 51, 51, 49, 48, 48, 53]

example : parse appleStr = some (.ok ⟨appleStr⟩) := by rfl
example : parse (appleStr.take 11) = some (.error (.InvalidValueStringLength 11)) := by rfl
example : parse_loose [9, 117, 115, 48, 51, 55, 56, 51, 51, 49, 48, 48, 53, 32] =
    some (.ok ⟨appleStr⟩) := by rfl
example : build_from_payload (appleStr.take 11) = some (.ok ⟨appleStr⟩) := by rfl
example : build_from_parts [85, 83] (appleStr.drop 2 |>.take 9) = some (.ok ⟨appleStr⟩) := by
  rfl
example : parse [85, 83, 48, 51, 55, 56, 51, 51, 49, 48, 48, 54] =
    some (.error (.IncorrectCheckDigit 54 53)) := by rfl
example : parse [117, 115, 48, 51, 55, 56, 51, 51, 49, 48, 48, 53] =
    some (.error (.InvalidPrefix [117, 115])) := by rfl

/-! ## Character-value lemmas -/

/-- The value `char_value` yields on a valid byte. -/
def cval (c : Nat) : Nat := if c ≤ 57 then c - 48 else c - 65 + 10

theorem char_value_of_valid {c : Nat} (h : validByte c = true) :
    char_value c = some (cval c) := by
  unfold validByte is_ascii_digit is_upper_alpha at h
  simp only [Bool.or_eq_true, Bool.and_eq_true, decide_eq_true_eq] at h
  unfold char_value cval
  rcases h with ⟨h1, h2⟩ | ⟨h1, h2⟩
  · rw [if_pos ⟨h1, h2⟩, if_pos h2]
  · rw [if_neg (by omega), if_pos ⟨h1, h2⟩, if_neg (by omega)]

theorem char_value_of_invalid {c : Nat} (h : validByte c = false) :
    char_value c = none := by
  unfold validByte is_ascii_digit is_upper_alpha at h
  simp only [Bool.or_eq_false_iff, Bool.and_eq_false_iff, decide_eq_false_iff_not] at h
  unfold char_value
  rw [if_neg (by omega), if_neg (by omega)]

theorem cval_lt {c : Nat} (h : validByte c = true) : cval c < 36 := by
  unfold validByte is_ascii_digit is_upper_alpha at h
  simp only [Bool.or_eq_true, Bool.and_eq_true, decide_eq_true_eq] at h
  unfold cval
  rcases h with ⟨h1, h2⟩ | ⟨h1, h2⟩
  · rw [if_pos h2]; omega
  · rw [if_neg (by omega)]; omega

theorem char_value_lt {c v : Nat} (h : char_value c = some v) : v < 36 := by
  unfold char_value at h
  split at h
  · next hc => simp only [Option.some.injEq] at h; omega
  · split at h
    · next hc => simp only [Option.some.injEq] at h; omega
    · cases h

theorem charValues_of_valid {s : List Nat} (h : s.all validByte = true) :
    charValues s = some (s.map cval) := by
  induction s with
  | nil => rfl
  | cons c s ih =>
    simp only [List.all_cons, Bool.and_eq_true] at h
    simp only [charValues, char_value_of_valid h.1, ih h.2, List.map_cons]

theorem charValues_lt {s vs : List Nat} (h : charValues s = some vs) :
    ∀ v ∈ vs, v < 36 := by
  induction s generalizing vs with
  | nil => cases h; simp
  | cons c s ih =>
    unfold charValues at h
    cases hc : char_value c with
    | none => rw [hc] at h; cases h
    | some v =>
      rw [hc] at h
      cases hs : charValues s with
      | none => rw [hs] at h; cases h
      | some ws =>
        rw [hs] at h
        cases h
        intro u hu
        rcases List.mem_cons.mp hu with rfl | hu
        · exact char_value_lt hc
        · exact ih hs u hu

theorem charValues_append (xs ys : List Nat) :
    charValues (xs ++ ys)
      = (charValues xs).bind fun a => (charValues ys).map fun b => a ++ b := by
  induction xs with
  | nil => simp [charValues]
  | cons x xs ih =>
    rw [List.cons_append]
    show (match char_value x, charValues (xs ++ ys) with
        | some v, some vs => some (v :: vs)
        | _, _ => none) = _
    rw [ih]
    cases hx : char_value x <;> cases hxs : charValues xs <;> cases hys : charValues ys <;>
      simp [charValues, hx, hxs, hys]

theorem charValues_reverse (s : List Nat) :
    charValues s.reverse = (charValues s).map List.reverse := by
  induction s with
  | nil => rfl
  | cons c s ih =>
    rw [List.reverse_cons, charValues_append, ih]
    cases hs : charValues s <;> cases hc : char_value c <;> simp [charValues, hs, hc]

/-! ## Equivalence of the two checksum algorithms -/

/-- Sum of a digit sequence walked from step index `i`: even steps are
doubled (and re-expanded through `digits_of`), odd steps pass through
`digits_of` unchanged. -/
def weightedSum : List Nat → Nat → Nat
  | [], _ => 0
  | d :: ds, i =>
    (digits_of (if i % 2 == 0 then d * 2 else d)).sum + weightedSum ds (i + 1)

theorem enumFrom_flatMap_sum (ds : List Nat) (n : Nat) :
    ((List.enumFrom n ds).flatMap fun p =>
      if p.1 % 2 == 0 then digits_of (p.2 * 2) else digits_of p.2).sum
      = weightedSum ds n := by
  induction ds generalizing n with
  | nil => rfl
  | cons d ds ih =>
    simp only [List.enumFrom, List.flatMap_cons, List.sum_append, ih, weightedSum]
    by_cases h : (n % 2 == 0) = true <;> simp [h]

theorem weightedSum_cons (d : Nat) (ds : List Nat) (i : Nat) :
    weightedSum (d :: ds) i
      = (digits_of (if i % 2 == 0 then d * 2 else d)).sum + weightedSum ds (i + 1) := rfl

theorem weightedSum_append (xs ys : List Nat) (i : Nat) :
    weightedSum (xs ++ ys) i = weightedSum xs i + weightedSum ys (i + xs.length) := by
  induction xs generalizing i with
  | nil => simp [weightedSum]
  | cons x xs ih =>
    rw [List.cons_append, weightedSum_cons, ih, weightedSum_cons, List.length_cons]
    have h1 : i + 1 + xs.length = i + (xs.length + 1) := by omega
    rw [h1]
    omega

theorem weightedSum_mod (ds : List Nat) (i : Nat) :
    weightedSum ds i = weightedSum ds (i % 2) := by
  induction ds generalizing i with
  | nil => rfl
  | cons d ds ih =>
    simp only [weightedSum]
    have h2 : i % 2 % 2 = i % 2 := Nat.mod_mod_of_dvd i dvd_rfl
    have h3 : (i + 1) % 2 = (i % 2 + 1) % 2 := by omega
    rw [ih (i + 1), ih (i % 2 + 1), h2, h3]

/-- The pure table-driven loop, on already-translated character values. -/
def tableLoopV : List Nat → Nat → Nat → Nat
  | [], sum, _ => sum
  | v :: rest, sum, idx =>
    tableLoopV rest
      ((sum + (if idx % 2 == 0 then EVENS.getD v 0 else ODDS.getD v 0)) % 10)
      (idx + WIDTHS.getD v 0)

theorem tableLoop_eq (cs : List Nat) (sum idx : Nat) :
    tableLoop cs sum idx = (charValues cs).map fun vs => tableLoopV vs sum idx := by
  induction cs generalizing sum idx with
  | nil => rfl
  | cons c cs ih =>
    cases hc : char_value c with
    | none => simp [tableLoop, charValues, hc]
    | some v =>
      simp only [tableLoop, charValues, hc]
      rw [ih]
      cases hcs : charValues cs <;> simp [tableLoopV, hcs]

/-- Each table entry is the (mod 10) weighted-digit contribution of that
character value, and its `WIDTHS` entry is its digit count. -/
theorem table_facts : ∀ v : Nat, v < 36 →
    WIDTHS.getD v 0 = (digits_of v).length ∧
    EVENS.getD v 0 = weightedSum (digits_of v).reverse 0 % 10 ∧
    ODDS.getD v 0 = weightedSum (digits_of v).reverse 1 % 10 := by decide

theorem tableLoopV_eq (ws : List Nat) (sum idx : Nat)
    (hw : ∀ v ∈ ws, v < 36) (hs : sum < 10) :
    tableLoopV ws sum idx =
      (sum + weightedSum ((ws.map fun v => (digits_of v).reverse).flatten) idx) % 10 := by
  induction ws generalizing sum idx with
  | nil => simp only [tableLoopV, List.map_nil, List.flatten_nil, weightedSum]; omega
  | cons v ws ih =>
    have hv : v < 36 := hw v (List.mem_cons_self v ws)
    obtain ⟨hW, hE, hO⟩ := table_facts v hv
    simp only [tableLoopV, List.map_cons, List.flatten_cons]
    rw [ih _ _ (fun u hu => hw u (List.mem_cons_of_mem v hu))
      (Nat.mod_lt _ (by norm_num))]
    rw [weightedSum_append]
    have hlen : (digits_of v).reverse.length = WIDTHS.getD v 0 := by
      rw [hW, List.length_reverse]
    have hcontrib : (if idx % 2 == 0 then EVENS.getD v 0 else ODDS.getD v 0)
        = weightedSum (digits_of v).reverse idx % 10 := by
      rw [weightedSum_mod]
      cases hb : (idx % 2 == 0) with
      | true => rw [if_pos rfl, eq_of_beq hb]; exact hE
      | false =>
        have h1 : idx % 2 = 1 := by
          have h2 := ne_of_beq_false hb
          omega
        rw [if_neg Bool.false_ne_true, h1]
        exact hO
    rw [hcontrib, hlen]
    omega

/-- The two checksum implementations agree on every input, valid or not
(on an invalid input both panic). -/
theorem checksum_agree (s : List Nat) : checksum_functional s = checksum_table s := by
  unfold checksum_functional checksum_table
  rw [tableLoop_eq, charValues_reverse]
  cases hv : charValues s with
  | none => rfl
  | some vs =>
    simp only [Option.map_some']
    congr 1
    have h36 : ∀ v ∈ vs.reverse, v < 36 := by
      intro v hvm
      exact charValues_lt hv v (List.mem_reverse.mp hvm)
    have hdig : ((vs.map digits_of).flatten).reverse
        = (vs.reverse.map fun v => (digits_of v).reverse).flatten := by
      rw [List.reverse_flatten]
      congr 1
      rw [List.map_map, ← List.map_reverse]
      rfl
    rw [tableLoopV_eq vs.reverse 0 0 h36 (by norm_num)]
    simp only [List.enum, enumFrom_flatMap_sum, hdig, Nat.zero_add]

/-! ## Totality and range of the checksum on valid input -/

theorem tableLoop_some : ∀ cs : List Nat, cs.all validByte = true →
    ∀ sum idx : Nat, sum < 10 → ∃ r, tableLoop cs sum idx = some r ∧ r < 10 := by
  intro cs
  induction cs with
  | nil => exact fun _ sum idx hs => ⟨sum, rfl, hs⟩
  | cons c cs ih =>
    intro h sum idx hs
    simp only [List.all_cons, Bool.and_eq_true] at h
    simp only [tableLoop, char_value_of_valid h.1]
    exact ih h.2 _ _ (Nat.mod_lt _ (by norm_num))

theorem checksum_table_some {s : List Nat} (h : s.all validByte = true) :
    ∃ v, checksum_table s = some v ∧ v ≤ 9 := by
  obtain ⟨r, hr, hlt⟩ :=
    tableLoop_some s.reverse (by rwa [List.all_reverse]) 0 0 (by norm_num)
  refine ⟨if 10 - r == 10 then 0 else 10 - r, ?_, ?_⟩
  · unfold checksum_table
    rw [hr]
    rfl
  · by_cases hr0 : r = 0
    · subst hr0; simp
    · rw [if_neg (fun hh => hr0 (by have h10 := eq_of_beq hh; omega))]
      omega

theorem compute_check_digit_some {s : List Nat} (h : s.all validByte = true) :
    ∃ v, compute_check_digit s = some (48 + v) ∧ v ≤ 9 := by
  obtain ⟨v, hv, hle⟩ := checksum_table_some h
  exact ⟨v, by simp [compute_check_digit, hv], hle⟩

theorem is_ascii_digit_48 {v : Nat} (h : v ≤ 9) : is_ascii_digit (48 + v) = true := by
  unfold is_ascii_digit
  simp only [Bool.and_eq_true, decide_eq_true_eq]
  omega

theorem charValues_none : ∀ {s : List Nat} {c : Nat},
    c ∈ s → validByte c = false → charValues s = none := by
  intro s
  induction s with
  | nil => intro c hc; cases hc
  | cons a s ih =>
    intro c hc hv
    rcases List.mem_cons.mp hc with rfl | hmem
    · simp [charValues, char_value_of_invalid hv]
    · simp only [charValues, ih hmem hv]
      cases char_value a <;> rfl

/-! ## The reference (spec-prose) checksum definition, for comparison with
`checksum_functional` -/

/-- The character-value mapping as the spec's data model states it: digits
map to 0-9, letters to 10-35 (meaningful on valid bytes only). -/
def specCharValue (c : Nat) : Nat := if c ≤ 57 then c - 48 else c - 65 + 10

/-- Digit expansion as the spec states it: a value below 10 is one digit, a
letter value splits into two digits most-significant first. -/
def specDigits (v : Nat) : List Nat := if v < 10 then [v] else [v / 10, v % 10]

/-- Spec steps 4-5: walk the reversed digit sequence by index from 0;
double digits at even index, re-expanding a two-digit doubling into its
digits; odd-index digits pass through; sum all resulting digits. -/
def specWalkSum : Nat → List Nat → Nat
  | _, [] => 0
  | i, d :: ds =>
    (if i % 2 = 0 then (specDigits (2 * d)).sum else d) + specWalkSum (i + 1) ds

/-- The checksum reference definition assembled from the spec's prose:
values, digit expansion, reversal, alternating doubling, total, and
`10 − (sum mod 10)` with a result of exactly 10 reported as 0. -/
def checksumSpec (s : List Nat) : Nat :=
  let ds := ((s.map specCharValue).map specDigits).flatten.reverse
  let total := specWalkSum 0 ds
  if 10 - total % 10 = 10 then 0 else 10 - total % 10

theorem digits_of_eq_specDigits (x : Nat) : digits_of x = specDigits x := by
  unfold digits_of specDigits
  rcases Nat.lt_or_ge x 10 with h | h
  · rw [if_neg (by omega), if_pos h]
  · rw [if_pos h, if_neg (by omega)]

theorem cval_eq_specCharValue : cval = specCharValue := rfl

theorem digits_flatten_lt {vs : List Nat} (h : ∀ v ∈ vs, v < 36) :
    ∀ d ∈ (vs.map digits_of).flatten, d < 10 := by
  intro d hd
  rw [List.mem_flatten] at hd
  obtain ⟨l, hl, hdl⟩ := hd
  rw [List.mem_map] at hl
  obtain ⟨v, hv, rfl⟩ := hl
  have h36 := h v hv
  unfold digits_of at hdl
  split at hdl
  · rcases List.mem_pair.mp hdl with rfl | rfl <;> omega
  · rcases List.mem_singleton.mp hdl with rfl; omega

theorem weightedSum_eq_specWalkSum {ds : List Nat} (h : ∀ d ∈ ds, d < 10) :
    ∀ i : Nat, weightedSum ds i = specWalkSum i ds := by
  induction ds with
  | nil => intro i; rfl
  | cons d ds ih =>
    intro i
    have hd : d < 10 := h d (List.mem_cons_self d ds)
    have htail := ih (fun x hx => h x (List.mem_cons_of_mem d hx))
    rw [weightedSum_cons]
    show _ = (if i % 2 = 0 then (specDigits (2 * d)).sum else d) + specWalkSum (i + 1) ds
    rw [htail]
    congr 1
    cases hb : (i % 2 == 0) with
    | true =>
      rw [if_pos rfl, if_pos (eq_of_beq hb), digits_of_eq_specDigits, Nat.mul_comm]
    | false =>
      rw [if_neg Bool.false_ne_true, if_neg (ne_of_beq_false hb),
        digits_of_eq_specDigits]
      unfold specDigits
      rw [if_pos hd]
      simp

theorem checksum_functional_eq_spec {s : List Nat} (h : s.all validByte = true) :
    checksum_functional s = some (checksumSpec s) := by
  have hmem : ∀ c ∈ s, validByte c = true := List.all_eq_true.mp h
  have h36 : ∀ v ∈ s.map cval, v < 36 := by
    intro v hv
    rw [List.mem_map] at hv
    obtain ⟨c, hc, rfl⟩ := hv
    exact cval_lt (hmem c hc)
  have hlt : ∀ d ∈ (((s.map cval).map digits_of).flatten).reverse, d < 10 :=
    fun d hd => digits_flatten_lt h36 d (List.mem_reverse.mp hd)
  have hfun : digits_of = specDigits := funext digits_of_eq_specDigits
  unfold checksum_functional
  rw [charValues_of_valid h]
  simp only [Option.map_some']
  congr 1
  unfold checksumSpec
  simp only [List.enum, enumFrom_flatMap_sum]
  rw [weightedSum_eq_specWalkSum hlt 0, hfun, cval_eq_specCharValue]
  simp [beq_iff_eq]

theorem checksumSpec_le_9 (s : List Nat) : checksumSpec s ≤ 9 := by
  unfold checksumSpec
  simp only []
  split <;> omega

/-! ## Computation lemmas for the validators -/

theorem vpfx_err_len {p : List Nat} (h : p.length ≠ 2) :
    validate_prefix_format p = .error (.InvalidPrefixArrayLength p.length) := by
  unfold validate_prefix_format
  rw [if_pos h]

theorem vpfx_err_bad {p : List Nat} (h2 : p.length = 2)
    (h : p.all is_upper_alpha = false) :
    validate_prefix_format p = .error (.InvalidPrefix p) := by
  unfold validate_prefix_format
  rw [if_neg (by omega), if_neg (by simp [h])]

theorem vpfx_ok {p : List Nat} (h2 : p.length = 2) (h : p.all is_upper_alpha = true) :
    validate_prefix_format p = .ok p := by
  unfold validate_prefix_format
  rw [if_neg (by omega), if_pos h]

theorem vbc_err_len {p : List Nat} (h : p.length ≠ 9) :
    validate_basic_code_format p = .error (.InvalidBasicCodeArrayLength p.length) := by
  unfold validate_basic_code_format
  rw [if_pos h]

theorem vbc_err_bad {p : List Nat} (h9 : p.length = 9) (h : p.all validByte = false) :
    validate_basic_code_format p = .error (.InvalidBasicCode p) := by
  unfold validate_basic_code_format
  rw [if_neg (by omega), if_neg (by simp [h])]

theorem vbc_ok {p : List Nat} (h9 : p.length = 9) (h : p.all validByte = true) :
    validate_basic_code_format p = .ok p := by
  unfold validate_basic_code_format
  rw [if_neg (by omega), if_pos h]

theorem vpl_err_len {p : List Nat} (h : p.length ≠ 11) :
    validate_payload_format p = .error (.InvalidPayloadArrayLength p.length) := by
  unfold validate_payload_format
  rw [if_pos h]

theorem vpl_err_pfx {p : List Nat} (h11 : p.length = 11)
    (h : (p.take 2).all is_upper_alpha = false) :
    validate_payload_format p = .error (.InvalidPrefix (p.take 2)) := by
  unfold validate_payload_format
  rw [if_neg (by omega),
    vpfx_err_bad (by simp [List.length_take, h11]) h]

theorem vpl_err_body {p : List Nat} (h11 : p.length = 11)
    (hp : (p.take 2).all is_upper_alpha = true)
    (h : ((p.drop 2).take 9).all validByte = false) :
    validate_payload_format p = .error (.InvalidBasicCode ((p.drop 2).take 9)) := by
  unfold validate_payload_format
  rw [if_neg (by omega), vpfx_ok (by simp [List.length_take, h11]) hp]
  dsimp only
  rw [vbc_err_bad (by simp [List.length_take, List.length_drop, h11]) h]

theorem vpl_ok {p : List Nat} (h11 : p.length = 11)
    (hp : (p.take 2).all is_upper_alpha = true)
    (hb : ((p.drop 2).take 9).all validByte = true) :
    validate_payload_format p = .ok p := by
  unfold validate_payload_format
  rw [if_neg (by omega), vpfx_ok (by simp [List.length_take, h11]) hp]
  dsimp only
  rw [vbc_ok (by simp [List.length_take, List.length_drop, h11]) hb]

theorem payload_all_valid {p : List Nat} (h11 : p.length = 11)
    (hp : (p.take 2).all is_upper_alpha = true)
    (hb : ((p.drop 2).take 9).all validByte = true) :
    p.all validByte = true := by
  have h1 : (p.take 2).all validByte = true := by
    rw [List.all_eq_true] at hp ⊢
    intro x hx
    unfold validByte
    rw [hp x hx, Bool.or_true]
  have hd9 : (p.drop 2).take 9 = p.drop 2 :=
    List.take_of_length_le (by simp [List.length_drop, h11])
  rw [hd9] at hb
  have h3 : (p.take 2 ++ p.drop 2).all validByte = true := by
    rw [List.all_append, h1, hb]
    rfl
  rwa [List.take_append_drop] at h3

theorem vcd_err_format {p : List Nat} {cd : Nat} (h : is_ascii_digit cd = false) :
    validate_check_digit_value p cd = some (.error (.InvalidCheckDigit cd)) := by
  unfold validate_check_digit_value
  rw [if_pos (by simp [h])]

theorem vcd_incorrect {p : List Nat} {cd e : Nat} (hd : is_ascii_digit cd = true)
    (hc : compute_check_digit p = some e) (hne : cd ≠ e) :
    validate_check_digit_value p cd = some (.error (.IncorrectCheckDigit cd e)) := by
  unfold validate_check_digit_value
  rw [if_neg (by simp [hd]), hc]
  dsimp only
  rw [if_pos hne]

theorem vcd_ok {p : List Nat} {cd : Nat} (hd : is_ascii_digit cd = true)
    (hc : compute_check_digit p = some cd) :
    validate_check_digit_value p cd = some (.ok cd) := by
  unfold validate_check_digit_value
  rw [if_neg (by simp [hd]), hc]
  dsimp only
  rw [if_neg (by simp)]

theorem validateBytes_len {b : List Nat} (h : b.length ≠ 12) :
    validateBytes b = some (.error (.InvalidValueStringLength b.length)) := by
  unfold validateBytes
  rw [if_pos h]

theorem validateBytes_12 {b : List Nat} (h : b.length = 12) :
    validateBytes b =
      match validate_payload_format (b.take 11) with
      | .error e => some (.error e)
      | .ok _ =>
        match validate_check_digit_value (b.take 11) (b.getD 11 0) with
        | none => none
        | some (.error e) => some (.error e)
        | some (.ok _) => some (.ok b) := by
  unfold validateBytes
  rw [if_neg (by omega), if_neg (by omega)]

/-! ## Slice facts for 12-byte values -/

theorem take11_length {b : List Nat} (h : b.length = 12) : (b.take 11).length = 11 := by
  simp [List.length_take, h]

theorem take11_take2 (b : List Nat) : (b.take 11).take 2 = b.take 2 := by
  rw [List.take_take]
  norm_num

theorem body_take9 {b : List Nat} (h : b.length = 12) :
    ((b.take 11).drop 2).take 9 = (b.take 11).drop 2 :=
  List.take_of_length_le (by simp [List.length_drop, List.length_take, h])

/-! ## Case analysis of `validateBytes` -/

theorem validateBytes_err_pfx {b : List Nat} (h12 : b.length = 12)
    (h : (b.take 2).all is_upper_alpha = false) :
    validateBytes b = some (.error (.InvalidPrefix (b.take 2))) := by
  rw [validateBytes_12 h12,
    vpl_err_pfx (take11_length h12) (by rw [take11_take2]; exact h),
    take11_take2]

theorem validateBytes_err_body {b : List Nat} (h12 : b.length = 12)
    (hp : (b.take 2).all is_upper_alpha = true)
    (h : ((b.take 11).drop 2).all validByte = false) :
    validateBytes b = some (.error (.InvalidBasicCode ((b.take 11).drop 2))) := by
  rw [validateBytes_12 h12,
    vpl_err_body (take11_length h12) (by rw [take11_take2]; exact hp)
      (by rw [body_take9 h12]; exact h),
    body_take9 h12]

theorem validateBytes_err_cd_format {b : List Nat} (h12 : b.length = 12)
    (hp : (b.take 2).all is_upper_alpha = true)
    (hb : ((b.take 11).drop 2).all validByte = true)
    (hcd : is_ascii_digit (b.getD 11 0) = false) :
    validateBytes b = some (.error (.InvalidCheckDigit (b.getD 11 0))) := by
  rw [validateBytes_12 h12,
    vpl_ok (take11_length h12) (by rw [take11_take2]; exact hp)
      (by rw [body_take9 h12]; exact hb)]
  dsimp only
  rw [vcd_err_format hcd]

theorem payload11_all_valid {b : List Nat} (h12 : b.length = 12)
    (hp : (b.take 2).all is_upper_alpha = true)
    (hb : ((b.take 11).drop 2).all validByte = true) :
    (b.take 11).all validByte = true :=
  payload_all_valid (take11_length h12) (by rw [take11_take2]; exact hp)
    (by rw [body_take9 h12]; exact hb)

theorem validateBytes_err_cd_value {b : List Nat} {e : Nat} (h12 : b.length = 12)
    (hp : (b.take 2).all is_upper_alpha = true)
    (hb : ((b.take 11).drop 2).all validByte = true)
    (hcd : is_ascii_digit (b.getD 11 0) = true)
    (hc : compute_check_digit (b.take 11) = some e)
    (hne : b.getD 11 0 ≠ e) :
    validateBytes b = some (.error (.IncorrectCheckDigit (b.getD 11 0) e)) := by
  rw [validateBytes_12 h12,
    vpl_ok (take11_length h12) (by rw [take11_take2]; exact hp)
      (by rw [body_take9 h12]; exact hb)]
  dsimp only
  rw [vcd_incorrect hcd hc hne]

theorem validateBytes_all_ok {b : List Nat} (h12 : b.length = 12)
    (hp : (b.take 2).all is_upper_alpha = true)
    (hb : ((b.take 11).drop 2).all validByte = true)
    (hcd : is_ascii_digit (b.getD 11 0) = true)
    (hc : compute_check_digit (b.take 11) = some (b.getD 11 0)) :
    validateBytes b = some (.ok b) := by
  rw [validateBytes_12 h12,
    vpl_ok (take11_length h12) (by rw [take11_take2]; exact hp)
      (by rw [body_take9 h12]; exact hb)]
  dsimp only
  rw [vcd_ok hcd hc]

/-- Every outcome of `validateBytes` is `some` of either a success or one of
the five error variants strict validation can actually produce. -/
theorem validateBytes_shape (b : List Nat) :
    validateBytes b = some (.ok b)
    ∨ validateBytes b = some (.error (.InvalidValueStringLength b.length))
    ∨ validateBytes b = some (.error (.InvalidPrefix (b.take 2)))
    ∨ validateBytes b = some (.error (.InvalidBasicCode ((b.take 11).drop 2)))
    ∨ validateBytes b = some (.error (.InvalidCheckDigit (b.getD 11 0)))
    ∨ (∃ e, validateBytes b = some (.error (.IncorrectCheckDigit (b.getD 11 0) e))) := by
  by_cases h12 : b.length = 12
  case neg => exact Or.inr (Or.inl (validateBytes_len h12))
  case pos =>
    rcases (Bool.eq_false_or_eq_true ((b.take 2).all is_upper_alpha)).symm with hp | hp
    · exact Or.inr (Or.inr (Or.inl (validateBytes_err_pfx h12 hp)))
    rcases (Bool.eq_false_or_eq_true (((b.take 11).drop 2).all validByte)).symm with hb | hb
    · exact Or.inr (Or.inr (Or.inr (Or.inl (validateBytes_err_body h12 hp hb))))
    rcases (Bool.eq_false_or_eq_true (is_ascii_digit (b.getD 11 0))).symm with hcd | hcd
    · exact Or.inr (Or.inr (Or.inr (Or.inr (Or.inl
        (validateBytes_err_cd_format h12 hp hb hcd)))))
    obtain ⟨v, hc, hv9⟩ := compute_check_digit_some (payload11_all_valid h12 hp hb)
    by_cases hne : b.getD 11 0 = 48 + v
    · refine Or.inl (validateBytes_all_ok h12 hp hb hcd ?_)
      rw [hc, hne]
    · exact Or.inr (Or.inr (Or.inr (Or.inr (Or.inr
        ⟨48 + v, validateBytes_err_cd_value h12 hp hb hcd hc hne⟩))))

/-- Inversion: a successful `validateBytes` returns exactly its input and
certifies all the format and check-digit conditions. -/
theorem validateBytes_ok_inv {b r : List Nat} (h : validateBytes b = some (.ok r)) :
    r = b ∧ b.length = 12 ∧ (b.take 2).all is_upper_alpha = true
    ∧ ((b.take 11).drop 2).all validByte = true
    ∧ is_ascii_digit (b.getD 11 0) = true
    ∧ compute_check_digit (b.take 11) = some (b.getD 11 0) := by
  by_cases h12 : b.length = 12
  case neg => rw [validateBytes_len h12] at h; simp at h
  case pos =>
    rcases (Bool.eq_false_or_eq_true ((b.take 2).all is_upper_alpha)).symm with hp | hp
    · rw [validateBytes_err_pfx h12 hp] at h; simp at h
    rcases (Bool.eq_false_or_eq_true (((b.take 11).drop 2).all validByte)).symm with hb | hb
    · rw [validateBytes_err_body h12 hp hb] at h; simp at h
    rcases (Bool.eq_false_or_eq_true (is_ascii_digit (b.getD 11 0))).symm with hcd | hcd
    · rw [validateBytes_err_cd_format h12 hp hb hcd] at h; simp at h
    obtain ⟨v, hc, hv9⟩ := compute_check_digit_some (payload11_all_valid h12 hp hb)
    by_cases hne : b.getD 11 0 = 48 + v
    · have hcc : compute_check_digit (b.take 11) = some (b.getD 11 0) := by
        rw [hc, hne]
      rw [validateBytes_all_ok h12 hp hb hcd hcc] at h
      simp only [Option.some.injEq, Except.ok.injEq] at h
      exact ⟨h.symm, h12, hp, hb, hcd, hcc⟩
    · rw [validateBytes_err_cd_value h12 hp hb hcd hc hne] at h; simp at h

/-! ## Parse-level lemmas -/

theorem parse_eq_ok_iff {v : List Nat} {i : ISIN} :
    parse v = some (.ok i) ↔ validateBytes (utf8Str v) = some (.ok i.bytes) := by
  obtain ⟨bb⟩ := i
  unfold parse validate
  cases hv : validateBytes (utf8Str v) with
  | none => simp
  | some r =>
    cases r with
    | error e => simp [Except.map]
    | ok b => simp [Except.map, ISIN.mk.injEq, eq_comm]

theorem parse_eq_error_iff {v : List Nat} {e : Error} :
    parse v = some (.error e) ↔ validateBytes (utf8Str v) = some (.error e) := by
  unfold parse validate
  cases hv : validateBytes (utf8Str v) with
  | none => simp
  | some r =>
    cases r with
    | error e2 => simp [Except.map]
    | ok b => simp [Except.map]

theorem parse_none_iff {v : List Nat} :
    parse v = none ↔ validateBytes (utf8Str v) = none := by
  unfold parse validate
  cases validateBytes (utf8Str v) <;> simp

/-! ## The validated-identifier invariant -/

/-- The invariant every constructed `ISIN` satisfies: 12 bytes, bytes 0-1
uppercase letters, bytes 2-10 uppercase alphanumerics, byte 11 an ASCII
digit equal to the check digit the checksum engine computes on bytes 0-10. -/
def isinInvariant (i : ISIN) : Prop :=
  i.bytes.length = 12
  ∧ (i.bytes.take 2).all is_upper_alpha = true
  ∧ ((i.bytes.take 11).drop 2).all validByte = true
  ∧ is_ascii_digit (i.bytes.getD 11 0) = true
  ∧ compute_check_digit (i.bytes.take 11) = some (i.bytes.getD 11 0)

theorem parse_invariant {v : List Nat} {i : ISIN} (h : parse v = some (.ok i)) :
    isinInvariant i := by
  obtain ⟨hr, h12, hp, hb, hcd, hc⟩ := validateBytes_ok_inv (parse_eq_ok_iff.mp h)
  unfold isinInvariant
  rw [hr]
  exact ⟨h12, hp, hb, hcd, hc⟩

theorem build_from_payload_ok_inv {p : List Nat} {i : ISIN}
    (h : build_from_payload p = some (.ok i)) :
    ∃ v, v ≤ 9 ∧ i.bytes = utf8Str p ++ [48 + v]
      ∧ (utf8Str p).length = 11
      ∧ ((utf8Str p).take 2).all is_upper_alpha = true
      ∧ (((utf8Str p).drop 2).take 9).all validByte = true
      ∧ compute_check_digit (utf8Str p) = some (48 + v) := by
  unfold build_from_payload at h
  by_cases h11 : (utf8Str p).length = 11
  case neg => rw [vpl_err_len h11] at h; simp at h
  case pos =>
    rcases (Bool.eq_false_or_eq_true (((utf8Str p).take 2).all is_upper_alpha)).symm
      with hp2 | hp2
    · rw [vpl_err_pfx h11 hp2] at h; simp at h
    rcases (Bool.eq_false_or_eq_true ((((utf8Str p).drop 2).take 9).all validByte)).symm
      with hb2 | hb2
    · rw [vpl_err_body h11 hp2 hb2] at h; simp at h
    obtain ⟨v, hc, hv9⟩ := compute_check_digit_some (payload_all_valid h11 hp2 hb2)
    rw [vpl_ok h11 hp2 hb2] at h
    dsimp only at h
    rw [hc] at h
    simp only [Option.some.injEq, Except.ok.injEq] at h
    exact ⟨v, hv9, by rw [← h], h11, hp2, hb2, hc⟩

theorem build_from_payload_invariant {p : List Nat} {i : ISIN}
    (h : build_from_payload p = some (.ok i)) : isinInvariant i := by
  obtain ⟨v, hv9, hbytes, h11, hp2, hb2, hc⟩ := build_from_payload_ok_inv h
  unfold isinInvariant
  rw [hbytes]
  refine ⟨by simp [h11], ?_, ?_, ?_, ?_⟩
  · rw [List.take_append_of_le_length (by omega)]
    exact hp2
  · rw [List.take_left' h11]
    have h9 : ((utf8Str p).drop 2).take 9 = (utf8Str p).drop 2 :=
      List.take_of_length_le (by simp [List.length_drop, h11])
    rwa [h9] at hb2
  · rw [List.getD_append_right _ _ _ _ (by omega), h11]
    simpa using is_ascii_digit_48 hv9
  · rw [List.take_left' h11, List.getD_append_right _ _ _ _ (by omega), h11]
    simpa using hc

theorem build_from_parts_ok_inv {a c : List Nat} {i : ISIN}
    (h : build_from_parts a c = some (.ok i)) :
    ∃ v, v ≤ 9
      ∧ i.bytes = ((utf8Str a).take 2 ++ (utf8Str c).take 9) ++ [48 + v]
      ∧ (utf8Str a).length = 2
      ∧ ((utf8Str a).take 2).all is_upper_alpha = true
      ∧ (utf8Str c).length = 9
      ∧ ((utf8Str c).take 9).all validByte = true
      ∧ compute_check_digit ((utf8Str a).take 2 ++ (utf8Str c).take 9) = some (48 + v) := by
  unfold build_from_parts at h
  by_cases h2 : (utf8Str a).length = 2
  case neg => rw [if_pos h2] at h; simp at h
  case pos =>
    rw [if_neg (by omega)] at h
    have hl2 : ((utf8Str a).take 2).length = 2 := by simp [List.length_take, h2]
    rcases (Bool.eq_false_or_eq_true (((utf8Str a).take 2).all is_upper_alpha)).symm
      with hpa | hpa
    · rw [vpfx_err_bad hl2 hpa] at h; simp at h
    rw [vpfx_ok hl2 hpa] at h
    dsimp only at h
    by_cases h9 : (utf8Str c).length = 9
    case neg => rw [if_pos h9] at h; simp at h
    case pos =>
      rw [if_neg (by omega)] at h
      have hl9 : ((utf8Str c).take 9).length = 9 := by simp [List.length_take, h9]
      rcases (Bool.eq_false_or_eq_true (((utf8Str c).take 9).all validByte)).symm
        with hbc | hbc
      · rw [vbc_err_bad hl9 hbc] at h; simp at h
      rw [vbc_ok hl9 hbc] at h
      dsimp only at h
      have hall : ((utf8Str a).take 2 ++ (utf8Str c).take 9).all validByte = true := by
        rw [List.all_append]
        have ha : ((utf8Str a).take 2).all validByte = true := by
          rw [List.all_eq_true] at hpa ⊢
          intro x hx
          unfold validByte
          rw [hpa x hx, Bool.or_true]
        rw [ha, hbc]
        rfl
      obtain ⟨v, hc, hv9⟩ := compute_check_digit_some hall
      rw [hc] at h
      simp only [Option.some.injEq, Except.ok.injEq] at h
      exact ⟨v, hv9, by rw [← h], h2, hpa, h9, hbc, hc⟩

theorem build_from_parts_invariant {a c : List Nat} {i : ISIN}
    (h : build_from_parts a c = some (.ok i)) : isinInvariant i := by
  obtain ⟨v, hv9, hbytes, h2, hpa, h9, hbc, hc⟩ := build_from_parts_ok_inv h
  have hl2 : ((utf8Str a).take 2).length = 2 := by simp [List.length_take, h2]
  have hl9 : ((utf8Str c).take 9).length = 9 := by simp [List.length_take, h9]
  have hl11 : ((utf8Str a).take 2 ++ (utf8Str c).take 9).length = 11 := by
    simp [List.length_append, hl2, hl9]
  unfold isinInvariant
  rw [hbytes]
  refine ⟨by simp [List.length_append, hl2, hl9], ?_, ?_, ?_, ?_⟩
  · rw [List.take_append_of_le_length (by omega),
      List.take_append_of_le_length (by omega), List.take_take]
    simpa using hpa
  · rw [List.take_left' hl11, List.drop_left' hl2]
    exact hbc
  · rw [List.getD_append_right _ _ _ _ (by omega), hl11]
    simpa using is_ascii_digit_48 hv9
  · rw [List.take_left' hl11, List.getD_append_right _ _ _ _ (by omega), hl11]
    simpa using hc

/-! ## ASCII renderings round-trip through UTF-8 -/

theorem utf8Encode_ascii {c : Nat} (h : c < 128) : utf8Encode c = [c] := by
  unfold utf8Encode
  rw [if_pos h]

theorem utf8Str_ascii {b : List Nat} (h : ∀ x ∈ b, x < 128) : utf8Str b = b := by
  induction b with
  | nil => rfl
  | cons x b ih =>
    show utf8Encode x ++ (b.map utf8Encode).flatten = x :: b
    rw [utf8Encode_ascii (h x (List.mem_cons_self x b))]
    have ht : utf8Str b = b := ih fun y hy => h y (List.mem_cons_of_mem x hy)
    unfold utf8Str at ht
    rw [ht]
    rfl

theorem is_upper_alpha_range {b : Nat} (h : is_upper_alpha b = true) :
    65 ≤ b ∧ b ≤ 90 := by
  unfold is_upper_alpha at h
  simpa only [Bool.and_eq_true, decide_eq_true_eq] using h

theorem is_ascii_digit_range {b : Nat} (h : is_ascii_digit b = true) :
    48 ≤ b ∧ b ≤ 57 := by
  unfold is_ascii_digit at h
  simpa only [Bool.and_eq_true, decide_eq_true_eq] using h

theorem validByte_lt_128 {b : Nat} (h : validByte b = true) : b < 128 := by
  unfold validByte at h
  rw [Bool.or_eq_true] at h
  rcases h with h1 | h1
  · have := is_ascii_digit_range h1; omega
  · have := is_upper_alpha_range h1; omega

theorem invariant_ascii {i : ISIN} (h : isinInvariant i) : ∀ x ∈ i.bytes, x < 128 := by
  obtain ⟨h12, hp, hb, hcd, _⟩ := h
  intro x hx
  have hsplit : i.bytes.take 11 ++ i.bytes.drop 11 = i.bytes :=
    List.take_append_drop 11 i.bytes
  rw [← hsplit] at hx
  rcases List.mem_append.mp hx with hx1 | hx2
  · have hsplit2 : (i.bytes.take 11).take 2 ++ (i.bytes.take 11).drop 2
        = i.bytes.take 11 := List.take_append_drop 2 (i.bytes.take 11)
    rw [← hsplit2] at hx1
    rcases List.mem_append.mp hx1 with hx3 | hx3
    · rw [take11_take2] at hx3
      have := is_upper_alpha_range (List.all_eq_true.mp hp x hx3)
      omega
    · exact validByte_lt_128 (List.all_eq_true.mp hb x hx3)
  · have hlen11 : (i.bytes.drop 11).length = 1 := by simp [List.length_drop, h12]
    have hone : i.bytes.drop 11 = [i.bytes.getD 11 0] := by
      rcases hdrop : i.bytes.drop 11 with _ | ⟨y, ys⟩
      · rw [hdrop] at hlen11; simp at hlen11
      · rw [hdrop] at hlen11
        simp only [List.length_cons] at hlen11
        have hys : ys = [] := List.length_eq_zero.mp (by omega)
        subst hys
        have hy : i.bytes.getD 11 0 = y := by
          rw [List.getD_eq_getElem?_getD, ← Nat.add_zero 11, ← List.getElem?_drop,
            hdrop]
          simp
        rw [hy]
    rw [hone] at hx2
    rcases List.mem_singleton.mp hx2 with rfl
    have := is_ascii_digit_range hcd
    omega

/-! ## Normalisation lemmas for loose parsing -/

/-- Case-fold to uppercase and strip surrounding whitespace — the
normalisation loose parsing applies before delegating to strict parse. -/
def normalize_case_and_trim (s : List Nat) : List Nat :=
  trimStr (s.map to_ascii_uppercase)

theorem to_ascii_uppercase_idem (c : Nat) :
    to_ascii_uppercase (to_ascii_uppercase c) = to_ascii_uppercase c := by
  unfold to_ascii_uppercase
  by_cases h : 97 ≤ c ∧ c ≤ 122
  · rw [if_pos h, if_neg (by omega)]
  · rw [if_neg h, if_neg h]

theorem isWs_eq_false {c : Nat} (h33 : 33 ≤ c) (h126 : c ≤ 126) :
    isWhitespaceChar c = false := by
  unfold isWhitespaceChar
  simp only [Bool.or_eq_false_iff, Bool.and_eq_false_iff, decide_eq_false_iff_not,
    beq_eq_false_iff_ne]
  omega

theorem isWs_to_upper (c : Nat) :
    isWhitespaceChar (to_ascii_uppercase c) = isWhitespaceChar c := by
  unfold to_ascii_uppercase
  by_cases h : 97 ≤ c ∧ c ≤ 122
  · rw [if_pos h, isWs_eq_false (by omega) (by omega),
      isWs_eq_false (by omega) (by omega)]
  · rw [if_neg h]

theorem isWs_comp_upper :
    (isWhitespaceChar ∘ to_ascii_uppercase) = isWhitespaceChar :=
  funext isWs_to_upper

theorem trimStr_eq_rdropWhile (l : List Nat) :
    trimStr l = List.rdropWhile isWhitespaceChar (List.dropWhile isWhitespaceChar l) :=
  rfl

theorem dropWhile_trimStr (l : List Nat) :
    List.dropWhile isWhitespaceChar (trimStr l) = trimStr l := by
  rw [trimStr_eq_rdropWhile, List.dropWhile_eq_self_iff]
  intro hl
  have hpfx : List.rdropWhile isWhitespaceChar (List.dropWhile isWhitespaceChar l)
      <+: List.dropWhile isWhitespaceChar l := List.rdropWhile_prefix _ _
  have hne : List.rdropWhile isWhitespaceChar (List.dropWhile isWhitespaceChar l)
      ≠ [] := by
    intro hnil
    rw [hnil] at hl
    simp at hl
  have hdne : List.dropWhile isWhitespaceChar l ≠ [] := by
    intro hnil
    apply hne
    rw [hnil]
    simp
  rw [List.get_mk_zero hl, hpfx.head hne]
  have := List.head_dropWhile_not isWhitespaceChar l hdne
  simp [this]

theorem trimStr_idem (l : List Nat) : trimStr (trimStr l) = trimStr l := by
  rw [trimStr_eq_rdropWhile (trimStr l), dropWhile_trimStr,
    trimStr_eq_rdropWhile l, List.rdropWhile_idempotent]

theorem map_trimStr (l : List Nat) :
    (trimStr l).map to_ascii_uppercase = trimStr (l.map to_ascii_uppercase) := by
  have h1 : ∀ Y : List Nat,
      List.dropWhile isWhitespaceChar (Y.map to_ascii_uppercase)
        = (List.dropWhile isWhitespaceChar Y).map to_ascii_uppercase := by
    intro Y
    rw [List.dropWhile_map, isWs_comp_upper]
  unfold trimStr
  rw [h1, ← List.map_reverse, h1, ← List.map_reverse]

theorem upper_comp_upper :
    (to_ascii_uppercase ∘ to_ascii_uppercase) = to_ascii_uppercase :=
  funext to_ascii_uppercase_idem

theorem normalize_idem (s : List Nat) :
    normalize_case_and_trim (normalize_case_and_trim s) = normalize_case_and_trim s := by
  unfold normalize_case_and_trim
  rw [map_trimStr, List.map_map, upper_comp_upper]
  exact trimStr_idem _

/-! ## Outcome shapes of the builders -/

theorem build_from_payload_shape (p : List Nat) :
    (∃ i, build_from_payload p = some (.ok i))
    ∨ build_from_payload p
        = some (.error (.InvalidPayloadArrayLength (utf8Str p).length))
    ∨ build_from_payload p = some (.error (.InvalidPrefix ((utf8Str p).take 2)))
    ∨ build_from_payload p
        = some (.error (.InvalidBasicCode (((utf8Str p).drop 2).take 9))) := by
  unfold build_from_payload
  by_cases h11 : (utf8Str p).length = 11
  case neg =>
    rw [vpl_err_len h11]
    exact Or.inr (Or.inl rfl)
  case pos =>
    rcases (Bool.eq_false_or_eq_true (((utf8Str p).take 2).all is_upper_alpha)).symm
      with hp2 | hp2
    · rw [vpl_err_pfx h11 hp2]
      exact Or.inr (Or.inr (Or.inl rfl))
    rcases (Bool.eq_false_or_eq_true ((((utf8Str p).drop 2).take 9).all validByte)).symm
      with hb2 | hb2
    · rw [vpl_err_body h11 hp2 hb2]
      exact Or.inr (Or.inr (Or.inr rfl))
    obtain ⟨v, hc, hv9⟩ := compute_check_digit_some (payload_all_valid h11 hp2 hb2)
    rw [vpl_ok h11 hp2 hb2]
    dsimp only
    rw [hc]
    exact Or.inl ⟨_, rfl⟩

theorem build_from_parts_shape (a c : List Nat) :
    (∃ i, build_from_parts a c = some (.ok i))
    ∨ build_from_parts a c
        = some (.error (.InvalidPrefixStringLength (utf8Str a).length))
    ∨ build_from_parts a c = some (.error (.InvalidPrefix ((utf8Str a).take 2)))
    ∨ build_from_parts a c
        = some (.error (.InvalidBasicCodeStringLength (utf8Str c).length))
    ∨ build_from_parts a c = some (.error (.InvalidBasicCode ((utf8Str c).take 9))) := by
  unfold build_from_parts
  by_cases h2 : (utf8Str a).length = 2
  case neg =>
    rw [if_pos h2]
    exact Or.inr (Or.inl rfl)
  case pos =>
    rw [if_neg (by omega)]
    have hl2 : ((utf8Str a).take 2).length = 2 := by simp [List.length_take, h2]
    rcases (Bool.eq_false_or_eq_true (((utf8Str a).take 2).all is_upper_alpha)).symm
      with hpa | hpa
    · rw [vpfx_err_bad hl2 hpa]
      exact Or.inr (Or.inr (Or.inl rfl))
    rw [vpfx_ok hl2 hpa]
    dsimp only
    by_cases h9 : (utf8Str c).length = 9
    case neg =>
      rw [if_pos h9]
      exact Or.inr (Or.inr (Or.inr (Or.inl rfl)))
    case pos =>
      rw [if_neg (by omega)]
      have hl9 : ((utf8Str c).take 9).length = 9 := by simp [List.length_take, h9]
      rcases (Bool.eq_false_or_eq_true (((utf8Str c).take 9).all validByte)).symm
        with hbc | hbc
      · rw [vbc_err_bad hl9 hbc]
        exact Or.inr (Or.inr (Or.inr (Or.inr rfl)))
      rw [vbc_ok hl9 hbc]
      dsimp only
      have hall : ((utf8Str a).take 2 ++ (utf8Str c).take 9).all validByte = true := by
        rw [List.all_append]
        have ha : ((utf8Str a).take 2).all validByte = true := by
          rw [List.all_eq_true] at hpa ⊢
          intro x hx
          unfold validByte
          rw [hpa x hx, Bool.or_true]
        rw [ha, hbc]
        rfl
      obtain ⟨v, hc2, hv9⟩ := compute_check_digit_some hall
      rw [hc2]
      exact Or.inl ⟨_, rfl⟩

/-! ## The dead error variants are never produced -/

theorem validateBytes_not_dead (b : List Nat) (n : Nat) :
    validateBytes b ≠ some (.error (.InvalidValueArrayLength n))
    ∧ validateBytes b ≠ some (.error (.InvalidPayloadStringLength n)) := by
  rcases validateBytes_shape b with h|h|h|h|h|⟨e,h⟩ <;> rw [h] <;>
    exact ⟨by simp, by simp⟩

theorem parse_not_dead (s : List Nat) (n : Nat) :
    parse s ≠ some (.error (.InvalidValueArrayLength n))
    ∧ parse s ≠ some (.error (.InvalidPayloadStringLength n)) :=
  ⟨fun h => (validateBytes_not_dead _ n).1 (parse_eq_error_iff.mp h),
   fun h => (validateBytes_not_dead _ n).2 (parse_eq_error_iff.mp h)⟩

theorem build_from_payload_not_dead (p : List Nat) (n : Nat) :
    build_from_payload p ≠ some (.error (.InvalidValueArrayLength n))
    ∧ build_from_payload p ≠ some (.error (.InvalidPayloadStringLength n)) := by
  rcases build_from_payload_shape p with ⟨i, h⟩|h|h|h <;> rw [h] <;>
    exact ⟨by simp, by simp⟩

theorem build_from_parts_not_dead (a c : List Nat) (n : Nat) :
    build_from_parts a c ≠ some (.error (.InvalidValueArrayLength n))
    ∧ build_from_parts a c ≠ some (.error (.InvalidPayloadStringLength n)) := by
  rcases build_from_parts_shape a c with ⟨i, h⟩|h|h|h|h <;> rw [h] <;>
    exact ⟨by simp, by simp⟩

theorem parse_isSome (t : List Nat) : ∃ r, parse t = some r := by
  have hs := validateBytes_shape (utf8Str t)
  unfold parse validate
  rcases hs with h|h|h|h|h|⟨e,h⟩ <;> rw [h] <;> exact ⟨_, rfl⟩

/-! ## Claim theorems -/

/-- C1: for every byte string composed only of ASCII characters `0`-`9`
and `A`-`Z` (of any length, including empty), `checksum_functional` and
`checksum_table` return the same result. -/
theorem C1_checksum_equivalence (s : List Nat) (h : s.all validByte = true) :
    checksum_functional s = checksum_table s :=
  checksum_agree s

theorem C1_checksum_equivalence_witness :
    ([85, 83, 48, 51, 55, 56, 51, 51, 49, 48, 48].all validByte = true)
    ∧ checksum_functional [85, 83, 48, 51, 55, 56, 51, 51, 49, 48, 48]
        = checksum_table [85, 83, 48, 51, 55, 56, 51, 51, 49, 48, 48] :=
  ⟨by decide, C1_checksum_equivalence _ (by decide)⟩

/-- C2: every ISIN produced by `parse`, `parse_loose`, `build_from_payload`
or `build_from_parts` has 12 uppercase-alphanumeric ASCII bytes — bytes 0-1
uppercase letters, bytes 2-10 uppercase letters or digits — and byte 11 is
an ASCII decimal digit equal to the check digit the checksum engine
computes over bytes 0-10. -/
theorem C2_constructed_invariant :
    (∀ v i, parse v = some (.ok i) → isinInvariant i)
    ∧ (∀ v i, parse_loose v = some (.ok i) → isinInvariant i)
    ∧ (∀ p i, build_from_payload p = some (.ok i) → isinInvariant i)
    ∧ (∀ a c i, build_from_parts a c = some (.ok i) → isinInvariant i) :=
  ⟨fun _ _ h => parse_invariant h,
   fun _ _ h => parse_invariant h,
   fun _ _ h => build_from_payload_invariant h,
   fun _ _ _ h => build_from_parts_invariant h⟩

theorem C2_constructed_invariant_witness :
    parse appleStr = some (.ok (ISIN.mk appleStr))
    ∧ isinInvariant (ISIN.mk appleStr) :=
  ⟨rfl, C2_constructed_invariant.1 appleStr (ISIN.mk appleStr) rfl⟩

/-- C3: on every byte string of characters `0`-`9`/`A`-`Z`,
`checksum_functional` equals the reference definition assembled from the
spec's prose (`checksumSpec`), and the result is always in `0..=9`. -/
theorem C3_functional_matches_reference (s : List Nat) (h : s.all validByte = true) :
    checksum_functional s = some (checksumSpec s) ∧ checksumSpec s ≤ 9 :=
  ⟨checksum_functional_eq_spec h, checksumSpec_le_9 s⟩

theorem C3_functional_matches_reference_witness :
    ([85, 83, 48, 51, 55, 56, 51, 51, 49, 48, 48].all validByte = true)
    ∧ (checksum_functional [85, 83, 48, 51, 55, 56, 51, 51, 49, 48, 48]
        = some (checksumSpec [85, 83, 48, 51, 55, 56, 51, 51, 49, 48, 48])
      ∧ checksumSpec [85, 83, 48, 51, 55, 56, 51, 51, 49, 48, 48] ≤ 9) :=
  ⟨by decide, C3_functional_matches_reference _ (by decide)⟩

/-- C4: strict parse checks run in a fixed order and the first violation
wins: a length error whenever the byte length is not 12; otherwise a
prefix error whenever the prefix is malformed (whatever the rest looks
like); then a body error; then a check-digit-format error; then a
check-digit-value error. -/
theorem C4_first_violation_wins (s : List Nat) :
    ((utf8Str s).length ≠ 12 →
      parse s = some (.error (.InvalidValueStringLength (utf8Str s).length)))
    ∧ ((utf8Str s).length = 12 →
        ((utf8Str s).take 2).all is_upper_alpha = false →
        parse s = some (.error (.InvalidPrefix ((utf8Str s).take 2))))
    ∧ ((utf8Str s).length = 12 →
        ((utf8Str s).take 2).all is_upper_alpha = true →
        (((utf8Str s).take 11).drop 2).all validByte = false →
        parse s = some (.error (.InvalidBasicCode (((utf8Str s).take 11).drop 2))))
    ∧ ((utf8Str s).length = 12 →
        ((utf8Str s).take 2).all is_upper_alpha = true →
        (((utf8Str s).take 11).drop 2).all validByte = true →
        is_ascii_digit ((utf8Str s).getD 11 0) = false →
        parse s = some (.error (.InvalidCheckDigit ((utf8Str s).getD 11 0))))
    ∧ (∀ e, (utf8Str s).length = 12 →
        ((utf8Str s).take 2).all is_upper_alpha = true →
        (((utf8Str s).take 11).drop 2).all validByte = true →
        is_ascii_digit ((utf8Str s).getD 11 0) = true →
        compute_check_digit ((utf8Str s).take 11) = some e →
        (utf8Str s).getD 11 0 ≠ e →
        parse s = some (.error (.IncorrectCheckDigit ((utf8Str s).getD 11 0) e))) :=
  ⟨fun h => parse_eq_error_iff.mpr (validateBytes_len h),
   fun h12 hp => parse_eq_error_iff.mpr (validateBytes_err_pfx h12 hp),
   fun h12 hp hb => parse_eq_error_iff.mpr (validateBytes_err_body h12 hp hb),
   fun h12 hp hb hcd =>
     parse_eq_error_iff.mpr (validateBytes_err_cd_format h12 hp hb hcd),
   fun e h12 hp hb hcd hc hne =>
     parse_eq_error_iff.mpr (validateBytes_err_cd_value h12 hp hb hcd hc hne)⟩

theorem C4_first_violation_wins_witness :
    (utf8Str [97, 98, 33, 33, 33, 33, 33, 33, 33, 33, 33, 53]).length = 12
    ∧ ((utf8Str [97, 98, 33, 33, 33, 33, 33, 33, 33, 33, 33, 53]).take 2).all
        is_upper_alpha = false
    ∧ (((utf8Str [97, 98, 33, 33, 33, 33, 33, 33, 33, 33, 33, 53]).take 11).drop 2).all
        validByte = false
    ∧ parse [97, 98, 33, 33, 33, 33, 33, 33, 33, 33, 33, 53]
        = some (.error (.InvalidPrefix
            ((utf8Str [97, 98, 33, 33, 33, 33, 33, 33, 33, 33, 33, 53]).take 2))) :=
  ⟨by decide, by decide, by decide,
   (C4_first_violation_wins [97, 98, 33, 33, 33, 33, 33, 33, 33, 33, 33, 53]).2.1
     (by decide) (by decide)⟩

/-- C5: `parse` and `parse_loose` are total — for every input string
(empty, non-ASCII, any length) they return `some` result, a validated ISIN
or a typed error; the modelled panic (`none`) is unreachable. -/
theorem C5_parse_never_panics (s : List Nat) :
    (∃ r, parse s = some r) ∧ (∃ r, parse_loose s = some r) :=
  ⟨parse_isSome s, parse_isSome (trimStr (s.map to_ascii_uppercase))⟩

/-- C6: `build_from_payload` never returns a check-digit error of either
variant: it succeeds or fails with a payload-length, prefix-format, or
basic-code-format error. -/
theorem C6_build_from_payload_no_check_digit_error (p : List Nat) :
    ((∃ i, build_from_payload p = some (.ok i))
      ∨ (∃ n, build_from_payload p = some (.error (.InvalidPayloadArrayLength n)))
      ∨ (∃ w, build_from_payload p = some (.error (.InvalidPrefix w)))
      ∨ (∃ w, build_from_payload p = some (.error (.InvalidBasicCode w))))
    ∧ (∀ d e, build_from_payload p ≠ some (.error (.InvalidCheckDigit d))
        ∧ build_from_payload p ≠ some (.error (.IncorrectCheckDigit d e))) := by
  constructor
  · rcases build_from_payload_shape p with ⟨i, h⟩|h|h|h
    · exact Or.inl ⟨i, h⟩
    · exact Or.inr (Or.inl ⟨_, h⟩)
    · exact Or.inr (Or.inr (Or.inl ⟨_, h⟩))
    · exact Or.inr (Or.inr (Or.inr ⟨_, h⟩))
  · intro d e
    rcases build_from_payload_shape p with ⟨i, h⟩|h|h|h <;> rw [h] <;>
      exact ⟨by simp, by simp⟩

/-- C7: `parse_loose` equals strict `parse` after uppercasing and trimming
surrounding whitespace, and is idempotent under that normalisation:
`parse_loose s = parse_loose (normalize_case_and_trim s)`. -/
theorem C7_loose_parse_normalisation (s : List Nat) :
    parse_loose s = parse (normalize_case_and_trim s)
    ∧ parse_loose s = parse_loose (normalize_case_and_trim s) := by
  constructor
  · rfl
  · show parse (normalize_case_and_trim s)
      = parse (normalize_case_and_trim (normalize_case_and_trim s))
    rw [normalize_idem]

/-- C8: on any byte string containing a byte outside `0`-`9`/`A`-`Z`, both
checksum implementations reach the panicking branch of `char_value`
(modelled as `none`) instead of returning a typed error. -/
theorem C8_checksum_panics_on_invalid (s : List Nat)
    (h : ∃ c ∈ s, validByte c = false) :
    checksum_table s = none ∧ checksum_functional s = none := by
  obtain ⟨c, hcm, hcv⟩ := h
  have hnone : charValues s = none := charValues_none hcm hcv
  constructor
  · unfold checksum_table
    rw [tableLoop_eq, charValues_reverse, hnone]
    rfl
  · unfold checksum_functional
    rw [hnone]
    rfl

theorem C8_checksum_panics_on_invalid_witness :
    (∃ c ∈ [85, 83, 32], validByte c = false)
    ∧ checksum_table [85, 83, 32] = none
    ∧ checksum_functional [85, 83, 32] = none :=
  ⟨⟨32, by decide, by decide⟩,
   C8_checksum_panics_on_invalid [85, 83, 32] ⟨32, by decide, by decide⟩⟩

/-- C9: rendering a successfully parsed ISIN back to text and parsing that
text again yields the same result: `parse (render i) = parse v` whenever
`parse v = some (ok i)`. -/
theorem C9_round_trip (v : List Nat) (i : ISIN) (h : parse v = some (.ok i)) :
    parse (render i) = parse v := by
  have hinv := parse_invariant h
  have hascii := invariant_ascii hinv
  obtain ⟨hr, _⟩ := validateBytes_ok_inv (parse_eq_ok_iff.mp h)
  unfold render parse validate
  rw [utf8Str_ascii hascii, hr]

theorem C9_round_trip_witness :
    parse appleStr = some (.ok (ISIN.mk appleStr))
    ∧ parse (render (ISIN.mk appleStr)) = parse appleStr :=
  ⟨rfl, C9_round_trip appleStr (ISIN.mk appleStr) rfl⟩

/-- C10: any input whose byte length is not 12 makes `parse` and `validate`
return exactly `InvalidValueStringLength` with that length, and no public
operation ever returns `InvalidValueArrayLength` or
`InvalidPayloadStringLength` (the second length check inside `validate` is
dead code). -/
theorem C10_length_error_and_dead_variants :
    (∀ s : List Nat, (utf8Str s).length ≠ 12 →
        parse s = some (.error (.InvalidValueStringLength (utf8Str s).length))
        ∧ validate s = some (.error (.InvalidValueStringLength (utf8Str s).length)))
    ∧ (∀ (s : List Nat) (n : Nat),
        parse s ≠ some (.error (.InvalidValueArrayLength n))
        ∧ parse s ≠ some (.error (.InvalidPayloadStringLength n))
        ∧ parse_loose s ≠ some (.error (.InvalidValueArrayLength n))
        ∧ parse_loose s ≠ some (.error (.InvalidPayloadStringLength n))
        ∧ validate s ≠ some (.error (.InvalidValueArrayLength n))
        ∧ validate s ≠ some (.error (.InvalidPayloadStringLength n)))
    ∧ (∀ (p : List Nat) (n : Nat),
        build_from_payload p ≠ some (.error (.InvalidValueArrayLength n))
        ∧ build_from_payload p ≠ some (.error (.InvalidPayloadStringLength n)))
    ∧ (∀ (a c : List Nat) (n : Nat),
        build_from_parts a c ≠ some (.error (.InvalidValueArrayLength n))
        ∧ build_from_parts a c ≠ some (.error (.InvalidPayloadStringLength n))) :=
  ⟨fun s h => ⟨parse_eq_error_iff.mpr (validateBytes_len h), validateBytes_len h⟩,
   fun s n =>
     ⟨(parse_not_dead s n).1, (parse_not_dead s n).2,
      (parse_not_dead _ n).1, (parse_not_dead _ n).2,
      (validateBytes_not_dead _ n).1, (validateBytes_not_dead _ n).2⟩,
   fun p n => build_from_payload_not_dead p n,
   fun a c n => build_from_parts_not_dead a c n⟩

theorem C10_length_error_and_dead_variants_witness :
    (utf8Str []).length ≠ 12
    ∧ (parse [] = some (.error (.InvalidValueStringLength (utf8Str []).length))
       ∧ validate [] = some (.error (.InvalidValueStringLength (utf8Str []).length))) :=
  ⟨by decide, C10_length_error_and_dead_variants.1 [] (by decide)⟩

end Isin
